import Mathlib

/-!
Verification of the legacy-diff parser and dual-column reconciler of
diffkemp-htmlgen (`diffkemp_htmlgen/htmlgen.py`).

Lines are modelled as `List Char`; Python string operations used by the
source (`split("\n")`, `lstrip()`, slicing, `startswith`, `int(...)`)
are embedded as explicit functions on character lists.  The parser
(`Diff.__init__`) becomes a step function over an explicit state, the
reconciler (the per-fragment while loop of `HTMLGenerator._diff_to_html`)
becomes a cursor-driven recursion with an explicit loop bound that is
proved sufficient.
-/

deriving instance DecidableEq for Except

namespace DiffkempHtmlgen

/-- A line of text, as a list of characters. -/
abbrev Line := List Char

/-- Characters stripped by Python's `str.lstrip()` (ASCII whitespace). -/
def isPySpace (c : Char) : Bool :=
  c = ' ' || c = '\t' || c = '\n' || c = '\r' || c = '\x0b' || c = '\x0c'

/-- Python `line.lstrip()`. -/
def pyLStrip (l : Line) : Line := l.dropWhile isPySpace

/-- Python `s.strip()` (both ends), as used internally by `int(...)`. -/
def pyStripBoth (l : Line) : Line :=
  ((l.dropWhile isPySpace).reverse.dropWhile isPySpace).reverse

/-- Python `input.split("\n")`: `[] ↦ [[]]`, every newline separates. -/
def splitLines : Line → List Line
  | [] => [[]]
  | c :: cs =>
    if c = '\n' then [] :: splitLines cs
    else
      match splitLines cs with
      | [] => [[c]]
      | l :: ls => (c :: l) :: ls

/-- Digit run of Python `int(...)` after the first digit: single
underscores are allowed between digits. -/
def digitsCore : List Char → Nat → Option Nat
  | [], acc => some acc
  | '_' :: c :: cs, acc =>
    if c.isDigit then digitsCore cs (acc * 10 + (c.toNat - 48)) else none
  | '_' :: [], _ => none
  | c :: cs, acc =>
    if c.isDigit then digitsCore cs (acc * 10 + (c.toNat - 48)) else none

/-- Nonempty decimal digit sequence (underscores between digits allowed). -/
def digitsVal : List Char → Option Nat
  | [] => none
  | c :: cs => if c.isDigit then digitsCore cs (c.toNat - 48) else none

/-- Python `int(s)` on a decimal string: surrounding whitespace stripped,
optional single sign, then digits; `none` models the `ValueError`. -/
def pyInt? (l : Line) : Option Int :=
  match pyStripBoth l with
  | '-' :: rest => (digitsVal rest).map (fun n => -(n : Int))
  | '+' :: rest => (digitsVal rest).map (fun n => (n : Int))
  | rest => (digitsVal rest).map (fun n => (n : Int))

/-- Python `sline[4:-4]`, the slice used by both side-header branches. -/
def pySlice44 (l : Line) : Line :=
  (l.drop 4).take ((l.drop 4).length - 4)

/-- Python `line_nums.split(",")[0]`: the text before the first comma. -/
def beforeComma (l : Line) : Line := l.takeWhile (fun c => c ≠ ',')

/-- The fragment-separator token `"*************** "`. -/
def sepTok : Line := "*************** ".data

/-- The old-side header token `"***"`. -/
def leftHdrTok : Line := "***".data

/-- The new-side header token `"---"`. -/
def rightHdrTok : Line := "---".data

/-- `Diff.Fragment`: one contiguous aligned region of a legacy diff. -/
structure Fragment where
  function_name : Line
  start_line_left : Int := -1
  start_line_right : Int := -1
  lines_left : List Line := []
  lines_right : List Line := []
deriving DecidableEq, Repr

/-- The two `ValueError`s `Diff.__init__` can raise: the explicit
`"Invalid diff format"` raises, and the one from `int(...)`. -/
inductive ParseError where
  | malformedDiff
  | valueError
deriving DecidableEq, Repr

/-- The Python `state` variable's two non-`None` values
(`"left_line"` / `"right_line"`). -/
inductive Side where
  | left
  | right
deriving DecidableEq, Repr

/-- The parser's loop state: completed fragments (in order), the current
fragment (`current_fragment`), the side state (`state`) and the recorded
slicing offset.  In the source `offset` is an unbound local until a side
header is seen; it is only read when `state` is not `None`, at which
point it has been assigned, so the initial value `0` is never observed. -/
structure ParseState where
  fragments : List Fragment
  current : Option Fragment
  side : Option Side
  offset : Nat
deriving DecidableEq, Repr

/-- The state at the top of `Diff.__init__`. -/
def initState : ParseState := ⟨[], none, none, 0⟩

/-- One iteration of the `for line in lines` loop of `Diff.__init__`
(`sline = line.lstrip()` is written out as `pyLStrip line`). -/
def stepLine (s : ParseState) (line : Line) : Except ParseError ParseState :=
  if sepTok.isPrefixOf (pyLStrip line) then
    .ok { s with
          fragments := s.fragments ++ s.current.toList,
          current := some { function_name := (pyLStrip line).drop 16 } }
  else
    match s.current with
    | none => .error .malformedDiff
    | some frag =>
      if leftHdrTok.isPrefixOf (pyLStrip line) then
        match pyInt? (beforeComma (pySlice44 (pyLStrip line))) with
        | none => .error .valueError
        | some n =>
          .ok { s with
                current := some { frag with start_line_left := n },
                side := some .left,
                offset := line.length - (pyLStrip line).length }
      else if rightHdrTok.isPrefixOf (pyLStrip line) then
        match pyInt? (beforeComma (pySlice44 (pyLStrip line))) with
        | none => .error .valueError
        | some n =>
          .ok { s with
                current := some { frag with start_line_right := n },
                side := some .right,
                offset := line.length - (pyLStrip line).length }
      else
        match s.side with
        | none => .error .malformedDiff
        | some .left =>
          .ok { s with
                current := some { frag with
                  lines_left := frag.lines_left ++ [line.drop s.offset] } }
        | some .right =>
          .ok { s with
                current := some { frag with
                  lines_right := frag.lines_right ++ [line.drop s.offset] } }

/-- Folding `stepLine` over the input lines. -/
def runLines (s : ParseState) : List Line → Except ParseError ParseState
  | [] => .ok s
  | l :: ls =>
    match stepLine s l with
    | .error e => .error e
    | .ok s2 => runLines s2 ls

/-- `Diff`: the ordered fragment sequence produced by parsing. -/
structure Diff where
  fragments : List Fragment
deriving DecidableEq, Repr

/-- `Diff.__init__`: split the input on newlines and run the loop; the
resulting fragment list includes the still-current fragment (the source
appends `current_fragment` to `self.fragments` at creation time and then
mutates it in place). -/
def parse (input : Line) : Except ParseError Diff :=
  match runLines initState (splitLines input) with
  | .error e => .error e
  | .ok s => .ok ⟨s.fragments ++ s.current.toList⟩

/-- One table cell of the rendered diff: the CSS class of the `td`
(`removed` / `added` / `empty` / plain `line`) together with the line
number and text handed to `_format_source`. -/
inductive Cell where
  | empty
  | removed (num : Int) (text : Line)
  | added (num : Int) (text : Line)
  | context (num : Int) (text : Line)
deriving DecidableEq, Repr

/-- One emitted row: the left-column and right-column cells. -/
abbrev Row := Cell × Cell

/-- Python `line.startswith(c)` for a single character. -/
def firstIs (c : Char) : Line → Bool
  | [] => false
  | x :: _ => x = c

/-- One iteration of the while loop of `HTMLGenerator._diff_to_html`:
given the cursors `il`/`ir` (`index_left`/`index_right`), either the
loop has finished (`none`) or it emits one row and advances the cursors
(`some (row, il2, ir2)`).  The branches appear in source order: paired
change, pure deletion, pure addition, left side exhausted, right side
exhausted, plain context. -/
def reconStep (ll lr : List Line) (sl sr : Int) (il ir : Nat) :
    Option (Row × Nat × Nat) :=
  if il < ll.length ∨ ir < lr.length then
    if firstIs '!' (ll.getD il []) && firstIs '!' (lr.getD ir []) then
      some ((Cell.removed (sl + il) (ll.getD il []).tail,
             Cell.added (sr + ir) (lr.getD ir []).tail), il + 1, ir + 1)
    else if !(ll.getD il []).isEmpty &&
        (firstIs '!' (ll.getD il []) || firstIs '-' (ll.getD il [])) then
      some ((Cell.removed (sl + il) (ll.getD il []).tail, Cell.empty),
            il + 1, ir)
    else if !(lr.getD ir []).isEmpty &&
        (firstIs '!' (lr.getD ir []) || firstIs '+' (lr.getD ir [])) then
      some ((Cell.empty, Cell.added (sr + ir) (lr.getD ir []).tail),
            il, ir + 1)
    else if ll.length ≤ il then
      some ((Cell.context (sl + il) (lr.getD ir []),
             Cell.context (sr + ir) (lr.getD ir [])), il + 1, ir + 1)
    else if lr.length ≤ ir then
      some ((Cell.context (sl + il) (ll.getD il []),
             Cell.context (sr + ir) (ll.getD il [])), il + 1, ir + 1)
    else
      some ((Cell.context (sl + il) (ll.getD il []),
             Cell.context (sr + ir) (lr.getD ir [])), il + 1, ir + 1)
  else none

/-- The while loop of `_diff_to_html`, iterating `reconStep` under an
explicit loop bound.  Every iteration strictly shrinks
`(ll.length - il) + (lr.length - ir)`, so the bound
`ll.length + lr.length` used by `reconcile` is never exhausted
(proved below). -/
def reconcileAux (ll lr : List Line) (sl sr : Int) :
    Nat → Nat → Nat → List Row
  | _, _, 0 => []
  | il, ir, fuel + 1 =>
    match reconStep ll lr sl sr il ir with
    | none => []
    | some (row, il2, ir2) => row :: reconcileAux ll lr sl sr il2 ir2 fuel

/-- The per-fragment reconciliation of `_diff_to_html`: both cursors
start at 0. -/
def reconcile (f : Fragment) : List Row :=
  reconcileAux f.lines_left f.lines_right f.start_line_left
    f.start_line_right 0 0 (f.lines_left.length + f.lines_right.length)

/-- The `for fragment in diff.fragments` loop of `_diff_to_html`: each
fragment's rows are computed afresh from that fragment alone. -/
def diffRows : List Fragment → List (List Row)
  | [] => []
  | f :: fs => reconcile f :: diffRows fs

/-- Add `d` to a cell's line number (the text is untouched). -/
def shiftCell (d : Int) : Cell → Cell
  | .empty => .empty
  | .removed n t => .removed (n + d) t
  | .added n t => .added (n + d) t
  | .context n t => .context (n + d) t

/-- Shift a row's left column by `dl` and its right column by `dr`. -/
def shiftRow (dl dr : Int) (r : Row) : Row :=
  (shiftCell dl r.1, shiftCell dr r.2)

/-- Modelled from the spec: the expected pure-addition rows for a
fragment whose right lines, from position `k` on, are `ls` (right line
numbers `sr + k, sr + k + 1, …`, left column empty, marker stripped). -/
def addedRowsFrom (sr : Int) (k : Nat) : List Line → List Row
  | [] => []
  | l :: ls =>
    (Cell.empty, Cell.added (sr + k) l.tail) :: addedRowsFrom sr (k + 1) ls

/-- Modelled from the spec: the expected paired-change rows for two
equal-length line blocks read from position `k` on. -/
def pairedRowsFrom (sl sr : Int) (k : Nat) :
    List Line → List Line → List Row
  | l :: ls, r :: rs =>
    (Cell.removed (sl + k) l.tail, Cell.added (sr + k) r.tail) ::
      pairedRowsFrom sl sr (k + 1) ls rs
  | _, _ => []

/-- Modelled from the spec (amended): the rows emitted once one side is
exhausted — the surviving side's text in both columns, each column
keeping its own line number. -/
def bothColsRowsFrom (sl sr : Int) (k : Nat) : List Line → List Row
  | [] => []
  | l :: ls =>
    (Cell.context (sl + k) l, Cell.context (sr + k) l) ::
      bothColsRowsFrom sl sr (k + 1) ls

/-- Modelled from the spec (amended C1): scanning the lines in order,
parsing fails with the explicit `"Invalid diff format"` error exactly
when a non-separator line arrives while no fragment header has been
seen (`hasFrag = false`), or a side-content line (neither separator nor
side header) arrives while no side header has been seen anywhere so far
(`hasSide = false`).  A side header keeps `hasSide` set for good — a
fragment separator does not reset it — and a side header whose number
text does not parse stops the scan without this error. -/
def specMalformedFail (hasFrag hasSide : Bool) : List Line → Bool
  | [] => false
  | l :: ls =>
    if sepTok.isPrefixOf (pyLStrip l) then
      specMalformedFail true hasSide ls
    else if !hasFrag then
      true
    else if leftHdrTok.isPrefixOf (pyLStrip l) then
      match pyInt? (beforeComma (pySlice44 (pyLStrip l))) with
      | none => false
      | some _ => specMalformedFail hasFrag true ls
    else if rightHdrTok.isPrefixOf (pyLStrip l) then
      match pyInt? (beforeComma (pySlice44 (pyLStrip l))) with
      | none => false
      | some _ => specMalformedFail hasFrag true ls
    else if !hasSide then
      true
    else
      specMalformedFail hasFrag hasSide ls

/-- Modelled from the spec (amended C3): `cur` carries, for the current
fragment, whether a left and a right side header with parsed number
different from `-1` have been seen.  The scan accepts when every
fragment closed so far, and the final one, saw both.  On inputs where
parsing fails the scan's value is irrelevant (it returns `true` in the
branches where the parser raises). -/
def specSidesPresent (cur : Option (Bool × Bool)) : List Line → Bool
  | [] =>
    match cur with
    | none => true
    | some (hl, hr) => hl && hr
  | l :: ls =>
    if sepTok.isPrefixOf (pyLStrip l) then
      (match cur with
       | none => true
       | some (hl, hr) => hl && hr) && specSidesPresent (some (false, false)) ls
    else
      match cur with
      | none => true
      | some (hl, hr) =>
        if leftHdrTok.isPrefixOf (pyLStrip l) then
          match pyInt? (beforeComma (pySlice44 (pyLStrip l))) with
          | none => true
          | some n => specSidesPresent (some (decide (n ≠ -1), hr)) ls
        else if rightHdrTok.isPrefixOf (pyLStrip l) then
          match pyInt? (beforeComma (pySlice44 (pyLStrip l))) with
          | none => true
          | some n => specSidesPresent (some (hl, decide (n ≠ -1))) ls
        else
          specSidesPresent (some (hl, hr)) ls

/-- A fragment whose two start lines are both different from the
sentinel `-1`. -/
def goodFrag (f : Fragment) : Prop :=
  f.start_line_left ≠ -1 ∧ f.start_line_right ≠ -1

instance (f : Fragment) : Decidable (goodFrag f) := by
  unfold goodFrag; infer_instance

/-- Invariant tying the `specSidesPresent` scan flags to the parser
state: completed fragments are all good, and the flags, when set,
guarantee the corresponding start line of the current fragment. -/
def SidesInv (cur : Option (Bool × Bool)) (s : ParseState) : Prop :=
  (∀ f ∈ s.fragments, goodFrag f) ∧
  ((s.current = none ∧ cur = none) ∨
   (∃ f bl br, s.current = some f ∧ cur = some (bl, br) ∧
     (bl = true → f.start_line_left ≠ -1) ∧
     (br = true → f.start_line_right ≠ -1)))

/-- C1 counterexample input: a side-content line (` y`) follows the
second fragment header with no side marker in between. -/
def c1input : Line :=
  "*************** a\n*** 1,2 ***\n x\n*************** b\n y".data

/-- What the parser actually produces on `c1input`: the stale left-side
state from the first fragment routes ` y` into fragment `b`. -/
def c1expected : Diff :=
  ⟨[⟨"a".data, 1, -1, [" x".data], []⟩,
    ⟨"b".data, -1, -1, [" y".data], []⟩]⟩

/-- A bare side-content line, malformed from the first character. -/
def c1amInput : Line := " x".data

/-- C2 counterexample fragment: left list empty, one unmarked right
line, distinct start lines so the two columns are distinguishable. -/
def c2frag : Fragment := ⟨[], 10, 20, [], [" x".data]⟩

/-- Left-exhausted witness fragment for the amended C2. -/
def c2amLeftFrag : Fragment := ⟨[], 5, 8, [], [" a".data, " b".data]⟩

/-- Right-exhausted witness fragment for the amended C2. -/
def c2amRightFrag : Fragment := ⟨[], 5, 8, [" c".data], []⟩

/-- C3 counterexample input: a lone fragment header, no side markers. -/
def c3input : Line := "*************** a".data

/-- The parse of `c3input`: one fragment with both sentinels intact. -/
def c3diff : Diff := ⟨[⟨"a".data, -1, -1, [], []⟩]⟩

/-- A well-formed input whose single fragment has both side headers. -/
def c3okInput : Line :=
  "*************** f(x)\n*** 3,4 ***\n- a\n--- 5,6 ---\n+ b".data

/-- The fragment parsed from `c3okInput`. -/
def c3okFrag : Fragment := ⟨"f(x)".data, 3, 5, ["- a".data], ["+ b".data]⟩

/-- The diff parsed from `c3okInput`. -/
def c3okDiff : Diff := ⟨[c3okFrag]⟩

/-- C4 witness fragment: both line lists empty. -/
def c4frag : Fragment := ⟨[], 7, 9, [], []⟩

/-- C5 witness input with two fragment headers. -/
def c5input : Line :=
  "*************** one\n*** 1,2 ***\n x\n*************** two\n*** 3,4 ***\n y".data

/-- The diff parsed from `c5input`. -/
def c5diff : Diff :=
  ⟨[⟨"one".data, 1, -1, [" x".data], []⟩,
    ⟨"two".data, 3, -1, [" y".data], []⟩]⟩

/-- C6 witness fragment: the spec's round-trip scenario, 24 right lines
all marked `+`, `right_start_line = 1725`. -/
def c6frag : Fragment := ⟨[], 1665, 1725, [], List.replicate 24 "+ x".data⟩

/-- C7 witness fragment: two paired `!` lines on each side. -/
def c7frag : Fragment :=
  ⟨[], 544, 581, ["! a".data, "! b".data], ["! c".data, "! d".data]⟩

/-- C9 witness fragment (the current fragment mid-parse). -/
def c9frag : Fragment := ⟨"f".data, 1, -1, [" u".data], []⟩

/-- C9 witness state: a fragment is open and the left side selected, as
after `*** 1,2 ***` and one content line. -/
def c9state : ParseState := ⟨[], some c9frag, some Side.left, 0⟩

/-- A right-side header whose number text `x` is not an integer. -/
def c9line : Line := "--- x,3 ---".data

/-- Full C9 input: well-formed until the bad `---` header. -/
def c9input : Line := "*************** f\n*** 1,2 ***\n u\n--- x,3 ---".data

/-- C10 witness fragment producing a pure-deletion row. -/
def c10frag : Fragment := ⟨[], 1, 2, ["- a".data], []⟩

lemma firstIs_ne_nil {c : Char} {l : Line} (h : firstIs c l = true) :
    l ≠ [] := by
  cases l with
  | nil => simp [firstIs] at h
  | cons x xs => intro hx; cases hx

lemma ne_nil_of_not_isEmpty {l : Line} (h : (!l.isEmpty) = true) :
    l ≠ [] := by
  cases l with
  | nil => simp at h
  | cons x xs => intro hx; cases hx

lemma lt_of_getD_ne_nil {ll : List Line} {i : Nat} (h : ll.getD i [] ≠ []) :
    i < ll.length := by
  by_contra hc
  push_neg at hc
  exact h (List.getD_eq_default _ _ hc)

lemma getD_mem_self {ll : List Line} {i : Nat} (h : i < ll.length) :
    ll.getD i [] ∈ ll := by
  rw [List.getD_eq_getElem _ _ h]
  exact List.getElem_mem h

lemma reconStep_none_of {ll lr : List Line} {sl sr : Int} {il ir : Nat}
    (h1 : ll.length ≤ il) (h2 : lr.length ≤ ir) :
    reconStep ll lr sl sr il ir = none := by
  unfold reconStep
  rw [if_neg (by omega)]

lemma reconStep_advance {ll lr : List Line} {sl sr : Int} {il ir il2 ir2 : Nat}
    {r : Row} (h : reconStep ll lr sl sr il ir = some (r, il2, ir2)) :
    ll.length - il2 + (lr.length - ir2) < ll.length - il + (lr.length - ir) ∧
      il ≤ il2 ∧ ir ≤ ir2 := by
  unfold reconStep at h
  split at h
  case isFalse => exact absurd h (by simp)
  case isTrue hrange =>
  split at h
  case isTrue hb =>
    rw [Bool.and_eq_true] at hb
    have h1 : il < ll.length := lt_of_getD_ne_nil (firstIs_ne_nil hb.1)
    have h2 : ir < lr.length := lt_of_getD_ne_nil (firstIs_ne_nil hb.2)
    simp only [Option.some.injEq, Prod.mk.injEq] at h
    obtain ⟨-, h3, h4⟩ := h
    omega
  case isFalse hb1 =>
  split at h
  case isTrue hb =>
    rw [Bool.and_eq_true] at hb
    have h1 : il < ll.length := lt_of_getD_ne_nil (ne_nil_of_not_isEmpty hb.1)
    simp only [Option.some.injEq, Prod.mk.injEq] at h
    obtain ⟨-, h3, h4⟩ := h
    omega
  case isFalse hb2 =>
  split at h
  case isTrue hb =>
    rw [Bool.and_eq_true] at hb
    have h1 : ir < lr.length := lt_of_getD_ne_nil (ne_nil_of_not_isEmpty hb.1)
    simp only [Option.some.injEq, Prod.mk.injEq] at h
    obtain ⟨-, h3, h4⟩ := h
    omega
  case isFalse hb3 =>
  split at h
  case isTrue hb4 =>
    simp only [Option.some.injEq, Prod.mk.injEq] at h
    obtain ⟨-, h3, h4⟩ := h
    omega
  case isFalse hb4 =>
  split at h
  case isTrue hb5 =>
    simp only [Option.some.injEq, Prod.mk.injEq] at h
    obtain ⟨-, h3, h4⟩ := h
    omega
  case isFalse hb5 =>
    simp only [Option.some.injEq, Prod.mk.injEq] at h
    obtain ⟨-, h3, h4⟩ := h
    omega

lemma reconcileAux_fuel_eq (ll lr : List Line) (sl sr : Int) :
    ∀ f1 f2 il ir, ll.length - il + (lr.length - ir) ≤ f1 →
      ll.length - il + (lr.length - ir) ≤ f2 →
      reconcileAux ll lr sl sr il ir f1 = reconcileAux ll lr sl sr il ir f2 := by
  intro f1
  induction f1 with
  | zero =>
    intro f2 il ir h1 h2
    have hil : ll.length ≤ il := by omega
    have hir : lr.length ≤ ir := by omega
    cases f2 with
    | zero => rfl
    | succ g => simp [reconcileAux, reconStep_none_of hil hir]
  | succ f ih =>
    intro f2 il ir h1 h2
    cases f2 with
    | zero =>
      have hil : ll.length ≤ il := by omega
      have hir : lr.length ≤ ir := by omega
      simp [reconcileAux, reconStep_none_of hil hir]
    | succ g =>
      simp only [reconcileAux]
      cases hs : reconStep ll lr sl sr il ir with
      | none => rfl
      | some v =>
        obtain ⟨row, il2, ir2⟩ := v
        have hadv := reconStep_advance hs
        show row :: reconcileAux ll lr sl sr il2 ir2 f =
          row :: reconcileAux ll lr sl sr il2 ir2 g
        rw [ih g il2 ir2 (by omega) (by omega)]

lemma reconcileAux_len_le (ll lr : List Line) (sl sr : Int) :
    ∀ fuel il ir, (reconcileAux ll lr sl sr il ir fuel).length ≤ fuel := by
  intro fuel
  induction fuel with
  | zero => intro il ir; simp [reconcileAux]
  | succ f ih =>
    intro il ir
    simp only [reconcileAux]
    cases hs : reconStep ll lr sl sr il ir with
    | none => simp
    | some v =>
      obtain ⟨row, il2, ir2⟩ := v
      show (row :: reconcileAux ll lr sl sr il2 ir2 f).length ≤ f + 1
      simpa using ih il2 ir2

lemma getD_nil (i : Nat) : ([] : List Line).getD i [] = [] := by
  cases i <;> rfl

lemma reconStep_shift (ll lr : List Line) (sl sr dl dr : Int) (il ir : Nat) :
    reconStep ll lr (sl + dl) (sr + dr) il ir =
      (reconStep ll lr sl sr il ir).map
        (fun p => (shiftRow dl dr p.1, p.2)) := by
  unfold reconStep
  split
  case isFalse => rfl
  case isTrue hrange =>
  split
  case isTrue hb =>
    simp only [Option.map_some', shiftRow, shiftCell]
    rw [add_right_comm sl dl (il : Int), add_right_comm sr dr (ir : Int)]
  case isFalse hb1 =>
  split
  case isTrue hb =>
    simp only [Option.map_some', shiftRow, shiftCell]
    rw [add_right_comm sl dl (il : Int)]
  case isFalse hb2 =>
  split
  case isTrue hb =>
    simp only [Option.map_some', shiftRow, shiftCell]
    rw [add_right_comm sr dr (ir : Int)]
  case isFalse hb3 =>
  split
  case isTrue hb4 =>
    simp only [Option.map_some', shiftRow, shiftCell]
    rw [add_right_comm sl dl (il : Int), add_right_comm sr dr (ir : Int)]
  case isFalse hb4 =>
  split
  case isTrue hb5 =>
    simp only [Option.map_some', shiftRow, shiftCell]
    rw [add_right_comm sl dl (il : Int), add_right_comm sr dr (ir : Int)]
  case isFalse hb5 =>
    simp only [Option.map_some', shiftRow, shiftCell]
    rw [add_right_comm sl dl (il : Int), add_right_comm sr dr (ir : Int)]

lemma reconcileAux_shift (ll lr : List Line) (sl sr dl dr : Int) :
    ∀ fuel il ir,
      reconcileAux ll lr (sl + dl) (sr + dr) il ir fuel =
        (reconcileAux ll lr sl sr il ir fuel).map (shiftRow dl dr) := by
  intro fuel
  induction fuel with
  | zero => intro il ir; rfl
  | succ f ih =>
    intro il ir
    simp only [reconcileAux, reconStep_shift ll lr sl sr dl dr il ir]
    cases hs : reconStep ll lr sl sr il ir with
    | none => rfl
    | some v =>
      obtain ⟨row, il2, ir2⟩ := v
      simp only [Option.map_some']
      show shiftRow dl dr row ::
          reconcileAux ll lr (sl + dl) (sr + dr) il2 ir2 f =
        (row :: reconcileAux ll lr sl sr il2 ir2 f).map (shiftRow dl dr)
      rw [List.map_cons, ih il2 ir2]

lemma addedRowsFrom_length (sr : Int) :
    ∀ ls k, (addedRowsFrom sr k ls).length = ls.length := by
  intro ls
  induction ls with
  | nil => intro k; rfl
  | cons a as ih => intro k; simp [addedRowsFrom, ih]

lemma addedRowsFrom_getD (sr : Int) :
    ∀ ls k j, j < ls.length →
      (addedRowsFrom sr k ls).getD j (Cell.empty, Cell.empty) =
        (Cell.empty, Cell.added (sr + (k + j : Nat)) ((ls.getD j []).tail)) := by
  intro ls
  induction ls with
  | nil => intro k j h; simp at h
  | cons a as ih =>
    intro k j h
    cases j with
    | zero => simp [addedRowsFrom, List.getD_cons_zero]
    | succ j =>
      simp only [addedRowsFrom, List.getD_cons_succ]
      rw [ih (k + 1) j (by simpa using h)]
      congr 3
      omega

lemma reconcileAux_all_add (lr : List Line) (sl sr : Int)
    (hplus : ∀ l ∈ lr, firstIs '+' l = true) :
    ∀ fuel il ir, lr.length - ir ≤ fuel →
      reconcileAux [] lr sl sr il ir fuel = addedRowsFrom sr ir (lr.drop ir) := by
  intro fuel
  induction fuel with
  | zero =>
    intro il ir h
    have hir : lr.length ≤ ir := by omega
    rw [List.drop_eq_nil_of_le hir]
    rfl
  | succ f ih =>
    intro il ir h
    by_cases hir : lr.length ≤ ir
    · rw [List.drop_eq_nil_of_le hir]
      have h0 : ([] : List Line).length ≤ il := by simp
      simp [reconcileAux, reconStep_none_of h0 hir, addedRowsFrom]
    · push_neg at hir
      have hplusir := hplus _ (getD_mem_self hir)
      have hne := firstIs_ne_nil hplusir
      have hemp : (lr.getD ir []).isEmpty = false := by
        cases hgd : lr.getD ir [] with
        | nil => exact absurd hgd hne
        | cons a as => rfl
      have hstep : reconStep [] lr sl sr il ir =
          some ((Cell.empty, Cell.added (sr + ir) (lr.getD ir []).tail),
                il, ir + 1) := by
        unfold reconStep
        rw [if_pos (Or.inr hir), getD_nil]
        rw [if_neg (by simp [firstIs])]
        rw [if_neg (by simp)]
        rw [if_pos (by rw [hemp, hplusir]; simp)]
      rw [List.drop_eq_getElem_cons hir]
      simp only [reconcileAux, hstep, addedRowsFrom]
      show (Cell.empty, Cell.added (sr + ir) (lr.getD ir []).tail) ::
          reconcileAux [] lr sl sr il (ir + 1) f =
        (Cell.empty, Cell.added (sr + ir) lr[ir].tail) ::
          addedRowsFrom sr (ir + 1) (lr.drop (ir + 1))
      rw [ih il (ir + 1) (by omega), List.getD_eq_getElem _ _ hir]

lemma pairedRowsFrom_length (sl sr : Int) :
    ∀ ls rs k, ls.length = rs.length →
      (pairedRowsFrom sl sr k ls rs).length = ls.length := by
  intro ls
  induction ls with
  | nil =>
    intro rs k h
    cases rs with
    | nil => rfl
    | cons r rs => simp at h
  | cons a as ih =>
    intro rs k h
    cases rs with
    | nil => simp at h
    | cons r rs => simp [pairedRowsFrom, ih rs (k + 1) (by simpa using h)]

lemma pairedRowsFrom_getD (sl sr : Int) :
    ∀ ls rs k j, j < ls.length → ls.length = rs.length →
      (pairedRowsFrom sl sr k ls rs).getD j (Cell.empty, Cell.empty) =
        (Cell.removed (sl + (k + j : Nat)) ((ls.getD j []).tail),
         Cell.added (sr + (k + j : Nat)) ((rs.getD j []).tail)) := by
  intro ls
  induction ls with
  | nil => intro rs k j h _; simp at h
  | cons a as ih =>
    intro rs k j h hlen
    cases rs with
    | nil => simp at hlen
    | cons r rs =>
      cases j with
      | zero => simp [pairedRowsFrom, List.getD_cons_zero]
      | succ j =>
        simp only [pairedRowsFrom, List.getD_cons_succ]
        rw [ih rs (k + 1) j (by simpa using h) (by simpa using hlen)]
        rw [show k + 1 + j = k + (j + 1) from by omega]

lemma reconcileAux_all_bang (ll lr : List Line) (sl sr : Int)
    (hlen : ll.length = lr.length)
    (hbang : ∀ j, j < ll.length →
      firstIs '!' (ll.getD j []) = true ∧ firstIs '!' (lr.getD j []) = true) :
    ∀ fuel k, ll.length - k ≤ fuel →
      reconcileAux ll lr sl sr k k fuel =
        pairedRowsFrom sl sr k (ll.drop k) (lr.drop k) := by
  intro fuel
  induction fuel with
  | zero =>
    intro k h
    have hk : ll.length ≤ k := by omega
    rw [List.drop_eq_nil_of_le hk, List.drop_eq_nil_of_le (hlen ▸ hk)]
    rfl
  | succ f ih =>
    intro k h
    by_cases hk : ll.length ≤ k
    · rw [List.drop_eq_nil_of_le hk, List.drop_eq_nil_of_le (hlen ▸ hk)]
      simp [reconcileAux, reconStep_none_of hk (hlen ▸ hk), pairedRowsFrom]
    · push_neg at hk
      have hk2 : k < lr.length := hlen ▸ hk
      obtain ⟨hbl, hbr⟩ := hbang k hk
      have hstep : reconStep ll lr sl sr k k =
          some ((Cell.removed (sl + k) (ll.getD k []).tail,
                 Cell.added (sr + k) (lr.getD k []).tail), k + 1, k + 1) := by
        unfold reconStep
        rw [if_pos (Or.inl hk)]
        rw [if_pos (by rw [hbl, hbr]; rfl)]
      rw [List.drop_eq_getElem_cons hk, List.drop_eq_getElem_cons hk2]
      simp only [reconcileAux, hstep, pairedRowsFrom]
      rw [ih (k + 1) (by omega)]
      rw [← List.getD_eq_getElem ll [] hk, ← List.getD_eq_getElem lr [] hk2]

lemma bothColsRowsFrom_length (sl sr : Int) :
    ∀ ls k, (bothColsRowsFrom sl sr k ls).length = ls.length := by
  intro ls
  induction ls with
  | nil => intro k; rfl
  | cons a as ih => intro k; simp [bothColsRowsFrom, ih]

lemma bothColsRowsFrom_getD (sl sr : Int) :
    ∀ ls k j, j < ls.length →
      (bothColsRowsFrom sl sr k ls).getD j (Cell.empty, Cell.empty) =
        (Cell.context (sl + (k + j : Nat)) (ls.getD j []),
         Cell.context (sr + (k + j : Nat)) (ls.getD j [])) := by
  intro ls
  induction ls with
  | nil => intro k j h; simp at h
  | cons a as ih =>
    intro k j h
    cases j with
    | zero => simp [bothColsRowsFrom, List.getD_cons_zero]
    | succ j =>
      simp only [bothColsRowsFrom, List.getD_cons_succ]
      rw [ih (k + 1) j (by simpa using h)]
      rw [show k + 1 + j = k + (j + 1) from by omega]

lemma reconcileAux_left_exhausted (lr : List Line) (sl sr : Int)
    (hr : ∀ l ∈ lr, firstIs '!' l = false ∧ firstIs '+' l = false) :
    ∀ fuel k, lr.length - k ≤ fuel →
      reconcileAux [] lr sl sr k k fuel = bothColsRowsFrom sl sr k (lr.drop k) := by
  intro fuel
  induction fuel with
  | zero =>
    intro k h
    have hk : lr.length ≤ k := by omega
    rw [List.drop_eq_nil_of_le hk]
    rfl
  | succ f ih =>
    intro k h
    by_cases hk : lr.length ≤ k
    · rw [List.drop_eq_nil_of_le hk]
      have h0 : ([] : List Line).length ≤ k := by simp
      simp [reconcileAux, reconStep_none_of h0 hk, bothColsRowsFrom]
    · push_neg at hk
      obtain ⟨hb1, hb2⟩ := hr _ (getD_mem_self hk)
      have hstep : reconStep [] lr sl sr k k =
          some ((Cell.context (sl + k) (lr.getD k []),
                 Cell.context (sr + k) (lr.getD k [])), k + 1, k + 1) := by
        unfold reconStep
        rw [if_pos (Or.inr hk), getD_nil]
        rw [if_neg (by simp [firstIs])]
        rw [if_neg (by simp)]
        rw [if_neg (by rw [hb1, hb2]; simp)]
        rw [if_pos (by simp)]
      rw [List.drop_eq_getElem_cons hk]
      simp only [reconcileAux, hstep, bothColsRowsFrom]
      rw [ih (k + 1) (by omega)]
      rw [← List.getD_eq_getElem lr [] hk]

lemma reconcileAux_right_exhausted (ll : List Line) (sl sr : Int)
    (hl : ∀ l ∈ ll, firstIs '!' l = false ∧ firstIs '-' l = false) :
    ∀ fuel k, ll.length - k ≤ fuel →
      reconcileAux ll [] sl sr k k fuel = bothColsRowsFrom sl sr k (ll.drop k) := by
  intro fuel
  induction fuel with
  | zero =>
    intro k h
    have hk : ll.length ≤ k := by omega
    rw [List.drop_eq_nil_of_le hk]
    rfl
  | succ f ih =>
    intro k h
    by_cases hk : ll.length ≤ k
    · rw [List.drop_eq_nil_of_le hk]
      have h0 : ([] : List Line).length ≤ k := by simp
      simp [reconcileAux, reconStep_none_of hk h0, bothColsRowsFrom]
    · push_neg at hk
      obtain ⟨hb1, hb2⟩ := hl _ (getD_mem_self hk)
      have hstep : reconStep ll [] sl sr k k =
          some ((Cell.context (sl + k) (ll.getD k []),
                 Cell.context (sr + k) (ll.getD k [])), k + 1, k + 1) := by
        unfold reconStep
        rw [if_pos (Or.inl hk), getD_nil]
        rw [if_neg (by simp [firstIs])]
        rw [if_neg (by rw [hb1, hb2]; simp)]
        rw [if_neg (by simp)]
        rw [if_neg (by omega)]
        rw [if_pos (by simp)]
      rw [List.drop_eq_getElem_cons hk]
      simp only [reconcileAux, hstep, bothColsRowsFrom]
      rw [ih (k + 1) (by omega)]
      rw [← List.getD_eq_getElem ll [] hk]

lemma diffRows_append : ∀ xs ys,
    diffRows (xs ++ ys) = diffRows xs ++ diffRows ys := by
  intro xs ys
  induction xs with
  | nil => rfl
  | cons f fs ih => simp [diffRows, ih]

lemma reconStep_cells {ll lr : List Line} {sl sr : Int} {il ir il2 ir2 : Nat}
    {c1 c2 : Cell}
    (h : reconStep ll lr sl sr il ir = some ((c1, c2), il2, ir2)) :
    (∀ n t, c1 = Cell.removed n t →
      ∃ l ∈ ll, (firstIs '!' l || firstIs '-' l) = true ∧ t = l.tail) ∧
    (∀ n t, c2 = Cell.added n t →
      ∃ l ∈ lr, (firstIs '!' l || firstIs '+' l) = true ∧ t = l.tail) ∧
    (∀ n t, c1 = Cell.context n t → t ∈ ll ∨ t ∈ lr) ∧
    (∀ n t, c2 = Cell.context n t → t ∈ ll ∨ t ∈ lr) := by
  unfold reconStep at h
  split at h
  case isFalse => exact absurd h (by simp)
  case isTrue hrange =>
  split at h
  case isTrue hb =>
    rw [Bool.and_eq_true] at hb
    have h1 := lt_of_getD_ne_nil (firstIs_ne_nil hb.1)
    have h2 := lt_of_getD_ne_nil (firstIs_ne_nil hb.2)
    simp only [Option.some.injEq, Prod.mk.injEq] at h
    obtain ⟨⟨hc1, hc2⟩, -⟩ := h
    subst hc1
    subst hc2
    refine ⟨?_, ?_, ?_, ?_⟩
    · intro n t ht
      injection ht with hn htt
      exact ⟨ll.getD il [], getD_mem_self h1, by rw [hb.1]; rfl, htt.symm⟩
    · intro n t ht
      injection ht with hn htt
      exact ⟨lr.getD ir [], getD_mem_self h2, by rw [hb.2]; rfl, htt.symm⟩
    · intro n t ht; exact absurd ht (by simp)
    · intro n t ht; exact absurd ht (by simp)
  case isFalse hb1 =>
  split at h
  case isTrue hb =>
    rw [Bool.and_eq_true] at hb
    have h1 := lt_of_getD_ne_nil (ne_nil_of_not_isEmpty hb.1)
    simp only [Option.some.injEq, Prod.mk.injEq] at h
    obtain ⟨⟨hc1, hc2⟩, -⟩ := h
    subst hc1
    subst hc2
    refine ⟨?_, ?_, ?_, ?_⟩
    · intro n t ht
      injection ht with hn htt
      exact ⟨ll.getD il [], getD_mem_self h1, hb.2, htt.symm⟩
    · intro n t ht; exact absurd ht (by simp)
    · intro n t ht; exact absurd ht (by simp)
    · intro n t ht; exact absurd ht (by simp)
  case isFalse hb2 =>
  split at h
  case isTrue hb =>
    rw [Bool.and_eq_true] at hb
    have h2 := lt_of_getD_ne_nil (ne_nil_of_not_isEmpty hb.1)
    simp only [Option.some.injEq, Prod.mk.injEq] at h
    obtain ⟨⟨hc1, hc2⟩, -⟩ := h
    subst hc1
    subst hc2
    refine ⟨?_, ?_, ?_, ?_⟩
    · intro n t ht; exact absurd ht (by simp)
    · intro n t ht
      injection ht with hn htt
      exact ⟨lr.getD ir [], getD_mem_self h2, hb.2, htt.symm⟩
    · intro n t ht; exact absurd ht (by simp)
    · intro n t ht; exact absurd ht (by simp)
  case isFalse hb3 =>
  split at h
  case isTrue hb4 =>
    have h2 : ir < lr.length := by omega
    simp only [Option.some.injEq, Prod.mk.injEq] at h
    obtain ⟨⟨hc1, hc2⟩, -⟩ := h
    subst hc1
    subst hc2
    refine ⟨?_, ?_, ?_, ?_⟩
    · intro n t ht; exact absurd ht (by simp)
    · intro n t ht; exact absurd ht (by simp)
    · intro n t ht
      injection ht with hn htt
      rw [← htt]
      exact Or.inr (getD_mem_self h2)
    · intro n t ht
      injection ht with hn htt
      rw [← htt]
      exact Or.inr (getD_mem_self h2)
  case isFalse hb4 =>
  split at h
  case isTrue hb5 =>
    have h1 : il < ll.length := by omega
    simp only [Option.some.injEq, Prod.mk.injEq] at h
    obtain ⟨⟨hc1, hc2⟩, -⟩ := h
    subst hc1
    subst hc2
    refine ⟨?_, ?_, ?_, ?_⟩
    · intro n t ht; exact absurd ht (by simp)
    · intro n t ht; exact absurd ht (by simp)
    · intro n t ht
      injection ht with hn htt
      rw [← htt]
      exact Or.inl (getD_mem_self h1)
    · intro n t ht
      injection ht with hn htt
      rw [← htt]
      exact Or.inl (getD_mem_self h1)
  case isFalse hb5 =>
    have h1 : il < ll.length := by omega
    have h2 : ir < lr.length := by omega
    simp only [Option.some.injEq, Prod.mk.injEq] at h
    obtain ⟨⟨hc1, hc2⟩, -⟩ := h
    subst hc1
    subst hc2
    refine ⟨?_, ?_, ?_, ?_⟩
    · intro n t ht; exact absurd ht (by simp)
    · intro n t ht; exact absurd ht (by simp)
    · intro n t ht
      injection ht with hn htt
      rw [← htt]
      exact Or.inl (getD_mem_self h1)
    · intro n t ht
      injection ht with hn htt
      rw [← htt]
      exact Or.inr (getD_mem_self h2)

lemma reconcileAux_mem (ll lr : List Line) (sl sr : Int) :
    ∀ fuel il ir r, r ∈ reconcileAux ll lr sl sr il ir fuel →
      (∀ n t, r.1 = Cell.removed n t →
        ∃ l ∈ ll, (firstIs '!' l || firstIs '-' l) = true ∧ t = l.tail) ∧
      (∀ n t, r.2 = Cell.added n t →
        ∃ l ∈ lr, (firstIs '!' l || firstIs '+' l) = true ∧ t = l.tail) ∧
      (∀ n t, r.1 = Cell.context n t → t ∈ ll ∨ t ∈ lr) ∧
      (∀ n t, r.2 = Cell.context n t → t ∈ ll ∨ t ∈ lr) := by
  intro fuel
  induction fuel with
  | zero => intro il ir r hr; simp [reconcileAux] at hr
  | succ f ih =>
    intro il ir r hr
    simp only [reconcileAux] at hr
    cases hs : reconStep ll lr sl sr il ir with
    | none => rw [hs] at hr; simp at hr
    | some v =>
      obtain ⟨⟨c1, c2⟩, il2, ir2⟩ := v
      rw [hs] at hr
      change r ∈ ((c1, c2) : Row) :: reconcileAux ll lr sl sr il2 ir2 f at hr
      rcases List.mem_cons.mp hr with heq | hmem
      · subst heq
        exact reconStep_cells hs
      · exact ih il2 ir2 r hmem

lemma stepLine_names {s : ParseState} {l : Line} {s2 : ParseState}
    (h : stepLine s l = .ok s2) :
    (s2.fragments ++ s2.current.toList).map Fragment.function_name =
      if sepTok.isPrefixOf (pyLStrip l) then
        (s.fragments ++ s.current.toList).map Fragment.function_name ++
          [(pyLStrip l).drop 16]
      else (s.fragments ++ s.current.toList).map Fragment.function_name := by
  unfold stepLine at h
  split at h
  case isTrue hsep =>
    rw [if_pos hsep]
    injection h with h
    subst h
    simp
  case isFalse hsep =>
    rw [if_neg hsep]
    split at h
    next hcur => exact absurd h (by simp)
    next frag hcur =>
      split at h
      case isTrue hl =>
        split at h
        next hint => exact absurd h (by simp)
        next n hint =>
          injection h with h
          subst h
          simp [hcur]
      case isFalse hl =>
      split at h
      case isTrue hr2 =>
        split at h
        next hint => exact absurd h (by simp)
        next n hint =>
          injection h with h
          subst h
          simp [hcur]
      case isFalse hr2 =>
        split at h
        next hside => exact absurd h (by simp)
        next hside =>
          injection h with h
          subst h
          simp [hcur]
        next hside =>
          injection h with h
          subst h
          simp [hcur]

lemma runLines_names : ∀ ls (s s2 : ParseState), runLines s ls = .ok s2 →
    (s2.fragments ++ s2.current.toList).map Fragment.function_name =
      (s.fragments ++ s.current.toList).map Fragment.function_name ++
        ((ls.filter (fun l => sepTok.isPrefixOf (pyLStrip l))).map
          (fun l => (pyLStrip l).drop 16)) := by
  intro ls
  induction ls with
  | nil =>
    intro s s2 h
    injection h with h
    subst h
    simp
  | cons l ls ih =>
    intro s s2 h
    simp only [runLines] at h
    cases hst : stepLine s l with
    | error e => rw [hst] at h; exact absurd h (by simp)
    | ok s3 =>
      rw [hst] at h
      have hn := stepLine_names hst
      rw [ih s3 s2 h, hn, List.filter_cons]
      cases hsep : sepTok.isPrefixOf (pyLStrip l) with
      | false => simp [hsep]
      | true => simp [hsep]

lemma runLines_malformed_iff : ∀ ls (s : ParseState),
    runLines s ls = .error .malformedDiff ↔
      specMalformedFail s.current.isSome s.side.isSome ls = true := by
  intro ls
  induction ls with
  | nil =>
    intro s
    simp [runLines, specMalformedFail]
  | cons l ls ih =>
    intro s
    simp only [runLines, specMalformedFail]
    unfold stepLine
    by_cases hsep : sepTok.isPrefixOf (pyLStrip l) = true
    · rw [if_pos hsep, if_pos hsep]
      exact ih ⟨s.fragments ++ s.current.toList,
        some ⟨(pyLStrip l).drop 16, -1, -1, [], []⟩, s.side, s.offset⟩
    · rw [if_neg hsep, if_neg hsep]
      cases hcur : s.current with
      | none => simp
      | some frag =>
        dsimp only
        rw [if_neg (by simp : ¬((!(some frag).isSome) = true))]
        by_cases hl : leftHdrTok.isPrefixOf (pyLStrip l) = true
        · rw [if_pos hl, if_pos hl]
          cases hint : pyInt? (beforeComma (pySlice44 (pyLStrip l))) with
          | none => simp
          | some n =>
            exact ih ⟨s.fragments,
              some ⟨frag.function_name, n, frag.start_line_right,
                    frag.lines_left, frag.lines_right⟩,
              some .left, l.length - (pyLStrip l).length⟩
        · rw [if_neg hl, if_neg hl]
          by_cases hr2 : rightHdrTok.isPrefixOf (pyLStrip l) = true
          · rw [if_pos hr2, if_pos hr2]
            cases hint : pyInt? (beforeComma (pySlice44 (pyLStrip l))) with
            | none => simp
            | some n =>
              exact ih ⟨s.fragments,
                some ⟨frag.function_name, frag.start_line_left, n,
                      frag.lines_left, frag.lines_right⟩,
                some .right, l.length - (pyLStrip l).length⟩
          · rw [if_neg hr2, if_neg hr2]
            cases hside : s.side with
            | none => simp
            | some sd =>
              rw [if_neg (by simp : ¬((!(some sd).isSome) = true))]
              cases sd with
              | left =>
                exact ih ⟨s.fragments,
                  some ⟨frag.function_name, frag.start_line_left,
                        frag.start_line_right,
                        frag.lines_left ++ [l.drop s.offset],
                        frag.lines_right⟩,
                  some Side.left, s.offset⟩
              | right =>
                exact ih ⟨s.fragments,
                  some ⟨frag.function_name, frag.start_line_left,
                        frag.start_line_right, frag.lines_left,
                        frag.lines_right ++ [l.drop s.offset]⟩,
                  some Side.right, s.offset⟩

lemma runLines_sides : ∀ ls cur (s s2 : ParseState), SidesInv cur s →
    specSidesPresent cur ls = true → runLines s ls = .ok s2 →
    ∀ f ∈ s2.fragments ++ s2.current.toList, goodFrag f := by
  intro ls
  induction ls with
  | nil =>
    intro cur s s2 hinv hspec hrun f hf
    injection hrun with hrun
    subst hrun
    obtain ⟨hfr, hrel⟩ := hinv
    rcases List.mem_append.mp hf with hf1 | hf2
    · exact hfr f hf1
    · rcases hrel with ⟨hc, hcu⟩ | ⟨fr, bl, br, hc, hcu, h1, h2⟩
      · rw [hc] at hf2; cases hf2
      · rw [hc] at hf2
        rw [hcu] at hspec
        dsimp only [specSidesPresent] at hspec
        rw [Bool.and_eq_true] at hspec
        rw [Option.toList_some, List.mem_singleton] at hf2
        subst hf2
        exact ⟨h1 hspec.1, h2 hspec.2⟩
  | cons l ls ih =>
    intro cur s s2 hinv hspec hrun
    obtain ⟨hfr, hrel⟩ := hinv
    simp only [runLines] at hrun
    simp only [specSidesPresent] at hspec
    unfold stepLine at hrun
    by_cases hsep : sepTok.isPrefixOf (pyLStrip l) = true
    · rw [if_pos hsep] at hrun hspec
      rw [Bool.and_eq_true] at hspec
      dsimp only at hrun
      refine ih (some (false, false))
        ⟨s.fragments ++ s.current.toList,
         some ⟨(pyLStrip l).drop 16, -1, -1, [], []⟩, s.side, s.offset⟩ s2
        ⟨?_, Or.inr ⟨⟨(pyLStrip l).drop 16, -1, -1, [], []⟩, false, false,
          rfl, rfl, fun hx => absurd hx Bool.false_ne_true,
          fun hx => absurd hx Bool.false_ne_true⟩⟩ hspec.2 hrun
      intro f hf
      rcases List.mem_append.mp hf with hf1 | hf2
      · exact hfr f hf1
      · rcases hrel with ⟨hc, hcu⟩ | ⟨fr, bl, br, hc, hcu, h1, h2⟩
        · rw [hc] at hf2; cases hf2
        · rw [hc] at hf2
          rw [hcu] at hspec
          have hbb := hspec.1
          dsimp only at hbb
          rw [Bool.and_eq_true] at hbb
          rw [Option.toList_some, List.mem_singleton] at hf2
          subst hf2
          exact ⟨h1 hbb.1, h2 hbb.2⟩
    · rw [if_neg hsep] at hrun hspec
      rcases hrel with ⟨hc, hcu⟩ | ⟨fr, bl, br, hc, hcu, h1, h2⟩
      · rw [hc] at hrun
        dsimp only at hrun
        exact absurd hrun (by simp)
      · rw [hc] at hrun
        rw [hcu] at hspec
        dsimp only at hrun hspec
        by_cases hl : leftHdrTok.isPrefixOf (pyLStrip l) = true
        · rw [if_pos hl] at hrun hspec
          cases hint : pyInt? (beforeComma (pySlice44 (pyLStrip l))) with
          | none =>
            rw [hint] at hrun
            dsimp only at hrun
            exact absurd hrun (by simp)
          | some n =>
            rw [hint] at hrun hspec
            dsimp only at hrun hspec
            exact ih (some (decide (n ≠ -1), br))
              ⟨s.fragments, some ⟨fr.function_name, n, fr.start_line_right,
                fr.lines_left, fr.lines_right⟩, some Side.left,
               l.length - (pyLStrip l).length⟩ s2
              ⟨hfr, Or.inr ⟨_, _, _, rfl, rfl,
                fun hd => of_decide_eq_true hd, h2⟩⟩ hspec hrun
        · rw [if_neg hl] at hrun hspec
          by_cases hr2 : rightHdrTok.isPrefixOf (pyLStrip l) = true
          · rw [if_pos hr2] at hrun hspec
            cases hint : pyInt? (beforeComma (pySlice44 (pyLStrip l))) with
            | none =>
              rw [hint] at hrun
              dsimp only at hrun
              exact absurd hrun (by simp)
            | some n =>
              rw [hint] at hrun hspec
              dsimp only at hrun hspec
              exact ih (some (bl, decide (n ≠ -1)))
                ⟨s.fragments, some ⟨fr.function_name, fr.start_line_left, n,
                  fr.lines_left, fr.lines_right⟩, some Side.right,
                 l.length - (pyLStrip l).length⟩ s2
                ⟨hfr, Or.inr ⟨_, _, _, rfl, rfl, h1,
                  fun hd => of_decide_eq_true hd⟩⟩ hspec hrun
          · rw [if_neg hr2] at hrun hspec
            cases hside : s.side with
            | none =>
              rw [hside] at hrun
              dsimp only at hrun
              exact absurd hrun (by simp)
            | some sd =>
              rw [hside] at hrun
              cases sd with
              | left =>
                dsimp only at hrun
                exact ih (some (bl, br))
                  ⟨s.fragments, some ⟨fr.function_name, fr.start_line_left,
                    fr.start_line_right, fr.lines_left ++ [l.drop s.offset],
                    fr.lines_right⟩, some Side.left, s.offset⟩ s2
                  ⟨hfr, Or.inr ⟨_, _, _, rfl, rfl, h1, h2⟩⟩ hspec hrun
              | right =>
                dsimp only at hrun
                exact ih (some (bl, br))
                  ⟨s.fragments, some ⟨fr.function_name, fr.start_line_left,
                    fr.start_line_right, fr.lines_left,
                    fr.lines_right ++ [l.drop s.offset]⟩, some Side.right,
                   s.offset⟩ s2
                  ⟨hfr, Or.inr ⟨_, _, _, rfl, rfl, h1, h2⟩⟩ hspec hrun

lemma rightHdr_not_leftHdr {l : Line}
    (h : rightHdrTok.isPrefixOf l = true) :
    leftHdrTok.isPrefixOf l = false := by
  rw [(by decide : rightHdrTok = ['-', '-', '-'])] at h
  rw [(by decide : leftHdrTok = ['*', '*', '*'])]
  cases l with
  | nil => simp [List.isPrefixOf] at h
  | cons c cs =>
    simp only [List.isPrefixOf, Bool.and_eq_true, beq_iff_eq] at h
    obtain ⟨h1, -⟩ := h
    subst h1
    simp [List.isPrefixOf]

/-- Claim C1, counterexample: the fragment separator does not reset the
current-side state, so the content line ` y` — which follows the header
of fragment `b` but precedes any side marker of `b` — does not raise the
error the claim requires; parsing succeeds and the stale left-side state
routes ` y` into fragment `b`'s left lines. -/
theorem c1_counterexample : parse c1input = Except.ok c1expected := by
  decide

/-- Claim C1, amended: parsing fails with the `"Invalid diff format"`
error (`MalformedDiffError`) exactly when, scanning the lines in order, a
non-separator line arrives before any fragment header has been seen, or a
side-content line (neither separator nor side header) arrives before any
side marker has been seen anywhere in the input so far — the side state
persists across fragment separators — and no earlier side header failed
integer conversion (which stops parsing with a different error first).
The right-hand side `specMalformedFail false false` is that scan. -/
theorem c1_amended (input : Line) :
    parse input = Except.error ParseError.malformedDiff ↔
      specMalformedFail false false (splitLines input) = true := by
  unfold parse
  cases hrun : runLines initState (splitLines input) with
  | error e =>
    have h := runLines_malformed_iff (splitLines input) initState
    rw [hrun] at h
    dsimp only
    simp only [Except.error.injEq] at h ⊢
    exact h
  | ok s =>
    have h := runLines_malformed_iff (splitLines input) initState
    rw [hrun] at h
    dsimp only
    constructor
    · intro hx
      exact absurd hx (by simp)
    · intro hx
      exact absurd (h.mpr hx) (by simp)

/-- Claim C1, witness for the amended theorem: a bare side-content line
is flagged by the scan and makes parsing fail with the malformed-input
error. -/
theorem c1_amended_witness :
    specMalformedFail false false (splitLines c1amInput) = true ∧
      parse c1amInput = Except.error ParseError.malformedDiff :=
  ⟨by decide, (c1_amended c1amInput).mpr (by decide)⟩

/-- Claim C2, counterexample: with the left side exhausted, the emitted
row shows the surviving right text in both columns, but the left column
carries the LEFT line number (10), not the right line number (20) the
claim requires. -/
theorem c2_counterexample :
    reconcile c2frag =
      [(Cell.context 10 " x".data, Cell.context 20 " x".data)] ∧
    reconcile c2frag ≠
      [(Cell.context 20 " x".data, Cell.context 20 " x".data)] := by
  decide

/-- Claim C2, amended: when one side is exhausted the surviving side's
text is displayed in both columns, but each column keeps its own line
number — left column `left_start + index`, right column
`right_start + index`; symmetrically for the right side. -/
theorem c2_amended (f g : Fragment) (hf0 : f.lines_left = [])
    (hf : ∀ l ∈ f.lines_right, firstIs '!' l = false ∧ firstIs '+' l = false)
    (hg0 : g.lines_right = [])
    (hg : ∀ l ∈ g.lines_left, firstIs '!' l = false ∧ firstIs '-' l = false) :
    ((reconcile f).length = f.lines_right.length ∧
     ∀ j, j < f.lines_right.length →
       (reconcile f).getD j (Cell.empty, Cell.empty) =
         (Cell.context (f.start_line_left + j) (f.lines_right.getD j []),
          Cell.context (f.start_line_right + j) (f.lines_right.getD j []))) ∧
    ((reconcile g).length = g.lines_left.length ∧
     ∀ j, j < g.lines_left.length →
       (reconcile g).getD j (Cell.empty, Cell.empty) =
         (Cell.context (g.start_line_left + j) (g.lines_left.getD j []),
          Cell.context (g.start_line_right + j) (g.lines_left.getD j []))) := by
  constructor
  · have hrec : reconcile f =
        bothColsRowsFrom f.start_line_left f.start_line_right 0
          f.lines_right := by
      unfold reconcile
      rw [hf0]
      rw [reconcileAux_left_exhausted f.lines_right f.start_line_left
        f.start_line_right hf _ 0 (by simp)]
      rw [List.drop_zero]
    refine ⟨by rw [hrec, bothColsRowsFrom_length], ?_⟩
    intro j hj
    rw [hrec, bothColsRowsFrom_getD _ _ _ _ _ hj]
    simp
  · have hrec : reconcile g =
        bothColsRowsFrom g.start_line_left g.start_line_right 0
          g.lines_left := by
      unfold reconcile
      rw [hg0]
      rw [reconcileAux_right_exhausted g.lines_left g.start_line_left
        g.start_line_right hg _ 0 (by simp)]
      rw [List.drop_zero]
    refine ⟨by rw [hrec, bothColsRowsFrom_length], ?_⟩
    intro j hj
    rw [hrec, bothColsRowsFrom_getD _ _ _ _ _ hj]
    simp

/-- Claim C2, witness for the amended theorem at concrete fragments:
row 1 of the left-exhausted fragment shows ` b` in both columns with
line numbers 6 (left: 5+1) and 9 (right: 8+1); row 0 of the
right-exhausted fragment shows ` c` with numbers 5 and 8. -/
theorem c2_amended_witness :
    (reconcile c2amLeftFrag).getD 1 (Cell.empty, Cell.empty) =
      (Cell.context 6 " b".data, Cell.context 9 " b".data) ∧
    (reconcile c2amRightFrag).getD 0 (Cell.empty, Cell.empty) =
      (Cell.context 5 " c".data, Cell.context 8 " c".data) := by
  have h := c2_amended c2amLeftFrag c2amRightFrag (by decide) (by decide)
    (by decide) (by decide)
  constructor
  · rw [h.1.2 1 (by decide)]
    decide
  · rw [h.2.2 0 (by decide)]
    decide

/-- Claim C3, counterexample: parsing a lone fragment-header line
completes without error, yet the resulting fragment keeps both sentinel
`-1` start lines. -/
theorem c3_counterexample :
    parse c3input = Except.ok c3diff ∧
      ∃ f ∈ c3diff.fragments,
        f.start_line_left = -1 ∧ f.start_line_right = -1 := by
  decide

/-- Claim C3, amended: the invariant holds only for inputs in which
every fragment's extent supplies both side headers (with parsed number
different from `-1`): on such inputs — captured by the
`specSidesPresent` scan — every fragment of a successful parse has
non-sentinel start lines.  (Without that restriction the claim fails,
see the counterexample.) -/
theorem c3_amended (input : Line) (d : Diff)
    (hwf : specSidesPresent none (splitLines input) = true)
    (hok : parse input = Except.ok d) :
    ∀ f ∈ d.fragments, f.start_line_left ≠ -1 ∧ f.start_line_right ≠ -1 := by
  unfold parse at hok
  cases hrun : runLines initState (splitLines input) with
  | error e =>
    rw [hrun] at hok
    exact absurd hok (by simp)
  | ok s =>
    rw [hrun] at hok
    dsimp only at hok
    injection hok with hok
    subst hok
    intro f hf
    exact runLines_sides (splitLines input) none initState s
      ⟨fun f2 hf2 => absurd hf2 (List.not_mem_nil f2), Or.inl ⟨rfl, rfl⟩⟩
      hwf hrun f hf

/-- Claim C3, witness for the amended theorem: a well-formed input whose
fragment has both headers passes the scan and yields non-sentinel start
lines. -/
theorem c3_amended_witness :
    (specSidesPresent none (splitLines c3okInput) = true ∧
     parse c3okInput = Except.ok c3okDiff ∧
     c3okFrag ∈ c3okDiff.fragments) ∧
    c3okFrag.start_line_left ≠ -1 ∧ c3okFrag.start_line_right ≠ -1 :=
  ⟨⟨by decide, by decide, by decide⟩,
   c3_amended c3okInput c3okDiff (by decide) (by decide) c3okFrag
     (by decide)⟩

/-- Claim C4: the reconciler is total — empty inputs yield the empty row
sequence; the output length is bounded by the total number of input
lines; granting the loop any extra fuel beyond `reconcile`'s bound
changes nothing (the while loop genuinely terminates within it); and
sentinel `-1` start lines are not special-cased: the rows of any
fragment are the rows of the same fragment with sentinel start lines,
with every line number shifted by `start + 1` (since
`start = -1 + (start + 1)`) — deterministic sentinel arithmetic, never
an error. -/
theorem c4_reconcile_total (f : Fragment) :
    (f.lines_left = [] ∧ f.lines_right = [] → reconcile f = []) ∧
    (reconcile f).length ≤ f.lines_left.length + f.lines_right.length ∧
    (∀ extra, reconcileAux f.lines_left f.lines_right f.start_line_left
        f.start_line_right 0 0
        (f.lines_left.length + f.lines_right.length + extra) =
      reconcile f) ∧
    reconcile f =
      (reconcile ⟨f.function_name, -1, -1, f.lines_left, f.lines_right⟩).map
        (shiftRow (f.start_line_left + 1) (f.start_line_right + 1)) := by
  refine ⟨?_, ?_, ?_, ?_⟩
  · rintro ⟨h1, h2⟩
    unfold reconcile
    rw [h1, h2]
    rfl
  · exact reconcileAux_len_le _ _ _ _ _ _ _
  · intro extra
    unfold reconcile
    exact reconcileAux_fuel_eq _ _ _ _ _ _ 0 0 (by omega) (by omega)
  · unfold reconcile
    have e1 : f.start_line_left = -1 + (f.start_line_left + 1) := by omega
    have e2 : f.start_line_right = -1 + (f.start_line_right + 1) := by omega
    conv_lhs => rw [e1, e2]
    exact reconcileAux_shift f.lines_left f.lines_right (-1) (-1)
      (f.start_line_left + 1) (f.start_line_right + 1)
      (f.lines_left.length + f.lines_right.length) 0 0

/-- Claim C4, witness: the empty fragment yields the empty sequence. -/
theorem c4_witness : reconcile c4frag = [] :=
  (c4_reconcile_total c4frag).1 ⟨rfl, rfl⟩

/-- Claim C5: a successful parse yields exactly one fragment per
fragment-separator line, in input order, each labelled with the text
after the separator token (on the left-trimmed line). -/
theorem c5_fragments_in_header_order (input : Line) (d : Diff)
    (hok : parse input = Except.ok d) :
    d.fragments.map Fragment.function_name =
      ((splitLines input).filter
        (fun l => sepTok.isPrefixOf (pyLStrip l))).map
        (fun l => (pyLStrip l).drop 16) ∧
    d.fragments.length =
      ((splitLines input).filter
        (fun l => sepTok.isPrefixOf (pyLStrip l))).length := by
  unfold parse at hok
  cases hrun : runLines initState (splitLines input) with
  | error e =>
    rw [hrun] at hok
    exact absurd hok (by simp)
  | ok s =>
    rw [hrun] at hok
    dsimp only at hok
    injection hok with hok
    subst hok
    have h := runLines_names (splitLines input) initState s hrun
    constructor
    · simpa [initState] using h
    · have h2 := congrArg List.length h
      simpa [initState] using h2

/-- Claim C5, witness: two headers give two fragments, in order, with
the header labels. -/
theorem c5_witness :
    parse c5input = Except.ok c5diff ∧
      c5diff.fragments.map Fragment.function_name =
        ["one".data, "two".data] ∧
      c5diff.fragments.length = 2 := by
  have h := c5_fragments_in_header_order c5input c5diff (by decide)
  refine ⟨by decide, ?_, ?_⟩
  · rw [h.1]
    decide
  · rw [h.2]
    decide

/-- Claim C6: a fragment with empty left lines and K right lines all
marked `+` reconciles to exactly K pure-addition rows — left column
empty, right line numbers `right_start_line + 0 … + K-1`, marker
stripped from the displayed text. -/
theorem c6_pure_addition_rows (f : Fragment) (h0 : f.lines_left = [])
    (hp : ∀ l ∈ f.lines_right, firstIs '+' l = true) :
    (reconcile f).length = f.lines_right.length ∧
    ∀ j, j < f.lines_right.length →
      (reconcile f).getD j (Cell.empty, Cell.empty) =
        (Cell.empty, Cell.added (f.start_line_right + j)
          ((f.lines_right.getD j []).tail)) := by
  have hrec : reconcile f =
      addedRowsFrom f.start_line_right 0 f.lines_right := by
    unfold reconcile
    rw [h0]
    rw [reconcileAux_all_add f.lines_right f.start_line_left
      f.start_line_right hp _ 0 0 (by simp)]
    rw [List.drop_zero]
  refine ⟨by rw [hrec, addedRowsFrom_length], ?_⟩
  intro j hj
  rw [hrec, addedRowsFrom_getD _ _ _ _ hj]
  simp

/-- Claim C6, witness: the spec's round-trip fragment — 24 `+` lines
with `right_start_line = 1725` — yields 24 addition rows numbered 1725
(row 0) through 1748 (row 23). -/
theorem c6_witness :
    (reconcile c6frag).length = 24 ∧
    (reconcile c6frag).getD 0 (Cell.empty, Cell.empty) =
      (Cell.empty, Cell.added 1725 " x".data) ∧
    (reconcile c6frag).getD 23 (Cell.empty, Cell.empty) =
      (Cell.empty, Cell.added 1748 " x".data) := by
  have h := c6_pure_addition_rows c6frag (by decide) (by decide)
  refine ⟨?_, ?_, ?_⟩
  · rw [h.1]
    decide
  · rw [h.2 0 (by decide)]
    decide
  · rw [h.2 23 (by decide)]
    decide

/-- Claim C7: equal-length line lists whose entries all start with `!`
on both sides reconcile to exactly that many paired-change rows, row j
carrying left number `left_start + j` and right number
`right_start + j`. -/
theorem c7_paired_change_rows (f : Fragment)
    (hlen : f.lines_left.length = f.lines_right.length)
    (hb : ∀ j, j < f.lines_left.length →
      firstIs '!' (f.lines_left.getD j []) = true ∧
      firstIs '!' (f.lines_right.getD j []) = true) :
    (reconcile f).length = f.lines_left.length ∧
    ∀ j, j < f.lines_left.length →
      (reconcile f).getD j (Cell.empty, Cell.empty) =
        (Cell.removed (f.start_line_left + j)
          ((f.lines_left.getD j []).tail),
         Cell.added (f.start_line_right + j)
          ((f.lines_right.getD j []).tail)) := by
  have hrec : reconcile f =
      pairedRowsFrom f.start_line_left f.start_line_right 0
        f.lines_left f.lines_right := by
    unfold reconcile
    rw [reconcileAux_all_bang f.lines_left f.lines_right f.start_line_left
      f.start_line_right hlen hb _ 0 (by omega)]
    rw [List.drop_zero, List.drop_zero]
  refine ⟨by rw [hrec, pairedRowsFrom_length _ _ _ _ _ hlen], ?_⟩
  intro j hj
  rw [hrec, pairedRowsFrom_getD _ _ _ _ _ _ hj hlen]
  simp

/-- Claim C7, witness: two paired `!` rows with starts 544/581 get
numbers 544, 545 on the left and 581, 582 on the right. -/
theorem c7_witness :
    (reconcile c7frag).length = 2 ∧
    (reconcile c7frag).getD 0 (Cell.empty, Cell.empty) =
      (Cell.removed 544 " a".data, Cell.added 581 " c".data) ∧
    (reconcile c7frag).getD 1 (Cell.empty, Cell.empty) =
      (Cell.removed 545 " b".data, Cell.added 582 " d".data) := by
  have h := c7_paired_change_rows c7frag (by decide) (by decide)
  refine ⟨?_, ?_, ?_⟩
  · rw [h.1]
    decide
  · rw [h.2 0 (by decide)]
    decide
  · rw [h.2 1 (by decide)]
    decide

/-- Claim C8: the reconciler is deterministic and holds no state across
calls or fragments — rerunning it on the same fragment gives the same
rows, and within the full per-diff loop the rows produced for a fragment
do not depend on the fragments before or after it. -/
theorem c8_reconcile_deterministic (f : Fragment) (fs gs : List Fragment) :
    reconcile f = reconcile f ∧
    diffRows (fs ++ f :: gs) = diffRows fs ++ reconcile f :: diffRows gs := by
  refine ⟨rfl, ?_⟩
  rw [diffRows_append fs (f :: gs)]
  rfl

/-- Claim C9: a non-separator line whose left-trimmed text starts with
`***` or `---` is handled as a side header even when a fragment is open
and a side is selected (it is never appended as content, and it selects
a side), and it makes parsing fail with the integer-conversion
`ValueError` exactly when the text between the header prefix and the
first comma is not a decimal integer. -/
theorem c9_header_overrides_content (s : ParseState) (line : Line)
    (frag : Fragment) (hcur : s.current = some frag)
    (hsep : sepTok.isPrefixOf (pyLStrip line) = false)
    (hhdr : leftHdrTok.isPrefixOf (pyLStrip line) = true ∨
            rightHdrTok.isPrefixOf (pyLStrip line) = true) :
    (stepLine s line = Except.error ParseError.valueError ↔
      pyInt? (beforeComma (pySlice44 (pyLStrip line))) = none) ∧
    (∀ s2, stepLine s line = Except.ok s2 → ∃ f2, s2.current = some f2 ∧
      f2.lines_left = frag.lines_left ∧ f2.lines_right = frag.lines_right ∧
      (s2.side = some Side.left ∨ s2.side = some Side.right)) := by
  have hnotsep : ¬ (sepTok.isPrefixOf (pyLStrip line) = true) := by
    rw [hsep]
    exact Bool.false_ne_true
  unfold stepLine
  rw [if_neg hnotsep, hcur]
  dsimp only
  rcases hhdr with hl | hr2
  · rw [if_pos hl]
    cases hint : pyInt? (beforeComma (pySlice44 (pyLStrip line))) with
    | none =>
      refine ⟨by simp, ?_⟩
      intro s2 hok
      exact absurd hok (by simp)
    | some n =>
      refine ⟨by simp, ?_⟩
      intro s2 hok
      injection hok with hok
      subst hok
      exact ⟨_, rfl, rfl, rfl, Or.inl rfl⟩
  · have hlf : ¬ (leftHdrTok.isPrefixOf (pyLStrip line) = true) := by
      rw [rightHdr_not_leftHdr hr2]
      exact Bool.false_ne_true
    rw [if_neg hlf, if_pos hr2]
    cases hint : pyInt? (beforeComma (pySlice44 (pyLStrip line))) with
    | none =>
      refine ⟨by simp, ?_⟩
      intro s2 hok
      exact absurd hok (by simp)
    | some n =>
      refine ⟨by simp, ?_⟩
      intro s2 hok
      injection hok with hok
      subst hok
      exact ⟨_, rfl, rfl, rfl, Or.inr rfl⟩

/-- Claim C9, witness: mid-fragment, with the left side selected, the
line `--- x,3 ---` is treated as a right-side header and its bad number
text makes the step fail with the integer-conversion error; the full
input `c9input` fails the same way, beyond the two documented
malformed-input conditions. -/
theorem c9_witness :
    stepLine c9state c9line = Except.error ParseError.valueError ∧
    parse c9input = Except.error ParseError.valueError := by
  constructor
  · exact (c9_header_overrides_content c9state c9line c9frag rfl (by decide)
      (Or.inr (by decide))).1.mpr (by decide)
  · decide

/-- Claim C10: in every emitted row, a removed cell's text is a stored
left line with its leading marker stripped, an added cell's text is a
stored right line with its marker stripped (the source line starts with
the corresponding marker), and a context cell — including both columns
of an exhausted-side row — displays a stored line in full, marker
included. -/
theorem c10_marker_stripping (f : Fragment) (r : Row)
    (hr : r ∈ reconcile f) :
    (∀ n t, r.1 = Cell.removed n t →
      ∃ l ∈ f.lines_left, (firstIs '!' l || firstIs '-' l) = true ∧
        t = l.tail) ∧
    (∀ n t, r.2 = Cell.added n t →
      ∃ l ∈ f.lines_right, (firstIs '!' l || firstIs '+' l) = true ∧
        t = l.tail) ∧
    (∀ n t, r.1 = Cell.context n t → t ∈ f.lines_left ∨ t ∈ f.lines_right) ∧
    (∀ n t, r.2 = Cell.context n t → t ∈ f.lines_left ∨ t ∈ f.lines_right) :=
  reconcileAux_mem f.lines_left f.lines_right f.start_line_left
    f.start_line_right _ 0 0 r hr

/-- Claim C10, witness: the pure-deletion row of `c10frag` displays
` a`, which is the stored line `- a` with its marker `-` removed. -/
theorem c10_witness :
    ((Cell.removed 1 " a".data, Cell.empty) : Row) ∈ reconcile c10frag ∧
    (firstIs '!' "- a".data || firstIs '-' "- a".data) = true ∧
    " a".data = "- a".data.tail ∧ "- a".data ∈ c10frag.lines_left := by
  have h := (c10_marker_stripping c10frag
    (Cell.removed 1 " a".data, Cell.empty) (by decide)).1 1 " a".data rfl
  obtain ⟨l, hl, hcond, ht⟩ := h
  have hleq : l = "- a".data := by
    have hl2 : l ∈ ["- a".data] := hl
    rw [List.mem_singleton] at hl2
    exact hl2
  subst hleq
  exact ⟨by decide, hcond, ht, hl⟩

end DiffkempHtmlgen
